import Mathlib

/-!
Verification of the svg-slicer path-to-toolpath compiler.

Shallow embedding of `src/svg_slicer/gcode_generator.py` and
`src/svg2gcode/gcode_generator.py`.  Coordinates are modelled as exact
rationals (the Python code uses IEEE doubles; every claim settled here is
structural, about counts, ordering, flags and exact algebraic identities,
not about rounding).  The transcendental primitives the code relies on
(`math.dist` / complex `abs`, `cos`, `sin`, `pi`, and the scipy `fsolve`
routine) are taken as parameters of the embedding, bundled in `NumEnv`;
concrete instantiations are supplied where theorems are evaluated on
concrete inputs.
-/

/-- Complex number `x + i*y`, the 2D point type of the generator
(Python `complex`). -/
structure Pt where
  re : ℚ
  im : ℚ
deriving DecidableEq, Repr

namespace Pt

/-- Componentwise addition (Python complex `+`). -/
def add (a b : Pt) : Pt := ⟨a.re + b.re, a.im + b.im⟩

/-- Componentwise subtraction (Python complex `-`). -/
def sub (a b : Pt) : Pt := ⟨a.re - b.re, a.im - b.im⟩

/-- Scaling by a real scalar (Python `float * complex`). -/
def smul (k : ℚ) (a : Pt) : Pt := ⟨k * a.re, k * a.im⟩

/-- Division by a real scalar (Python `complex / float`). -/
def sdiv (a : Pt) (k : ℚ) : Pt := ⟨a.re / k, a.im / k⟩

/-- Complex multiplication (Python `complex * complex`). -/
def cmul (a b : Pt) : Pt := ⟨a.re * b.re - a.im * b.im, a.re * b.im + a.im * b.re⟩

end Pt

/-- Uncaught Python exceptions that the generator code can raise. -/
inductive PyErr where
  | indexError
  | zeroDivision
deriving DecidableEq, Repr

/-- One emitted gcode line, abstracting the literal string formatting:
`raw` is a configured fragment line emitted verbatim, `feed r` is the
feed-rate change `G0 F{r}`, and `move x y` is the linear move
`G1 X{x} Y{y}` (the source formats an integral coordinate without a
fractional part, which does not change its value). -/
inductive GLine where
  | raw (s : String)
  | feed (rate : ℤ)
  | move (x y : ℚ)
deriving DecidableEq, Repr

/-- Slicing options record of `svg_slicer/slicing_options.py`.
The field `blade_offset` is modelled from the spec: the dataclass under
src lacks it although `GcodeGenerator._get_overcut` reads
`self.options.blade_offset`; the spec defines it as a non-negative number
with 0 meaning disabled. -/
structure SlicingOptions where
  start_point : Pt
  max_point : Option Pt
  normal_feedrate : ℤ
  travel_feedrate : ℤ
  curve_resolution : ℕ
  blade_offset : ℚ
  start_gcode : List String
  end_gcode : List String
  lift_gcode : List String
  unlift_gcode : List String
deriving DecidableEq, Repr

/-- Record of an `svgpathtools.Arc` as read by `_arc_to_points`:
start, end, complex radius `rx + i*ry`, rotation in degrees. -/
structure ArcRec where
  start : Pt
  stop : Pt
  radius : Pt
  rotation : ℚ
deriving DecidableEq, Repr

/-- Numeric primitives used by the generator: square root (for
`math.dist` and complex `abs`), cosine/sine (for `np.exp(1j*t)`), the
constant pi, and the `scipy.optimize.fsolve` call of `_arc_to_points`,
modelled as an opaque total routine from the arc data to the solution
vector `(xc, yc, theta1, theta2)` (fsolve always returns its last
iterate; it does not raise on non-convergence). -/
structure NumEnv where
  sqrt : ℚ → ℚ
  cos : ℚ → ℚ
  sin : ℚ → ℚ
  pi : ℚ
  solveArc : ArcRec → ℚ × ℚ × ℚ × ℚ

/-- The unit complex `exp(i*t) = cos t + i*sin t`. -/
def cexp (env : NumEnv) (t : ℚ) : Pt := ⟨env.cos t, env.sin t⟩

/-- Euclidean distance `math.dist((a.re,a.im),(b.re,b.im))`. -/
def pyDist (env : NumEnv) (a b : Pt) : ℚ :=
  env.sqrt ((b.re - a.re) ^ 2 + (b.im - a.im) ^ 2)

/-- The running bounding box `self.largest_x` / `self.largest_y`. -/
structure BBox where
  largest_x : ℚ
  largest_y : ℚ
deriving DecidableEq, Repr

/-- Folding one produced point into the running bounding box
(`self.largest_x = max(self.largest_x, point.real)` and likewise for y). -/
def bbUpdate (b : BBox) (p : Pt) : BBox :=
  ⟨max b.largest_x p.re, max b.largest_y p.im⟩

/-- Geometric primitive as dispatched on by `_get_points`; `other`
stands for any svgpathtools segment outside the four supported kinds
(it still has `start` and `end` attributes). -/
inductive Primitive where
  | line (s e : Pt)
  | arc (s e : Pt) (radius : Pt) (rotation : ℚ)
  | quad (s c e : Pt)
  | cubic (s c1 c2 e : Pt)
  | other (s e : Pt)
deriving DecidableEq, Repr

namespace Primitive

/-- The `start` attribute of a segment. -/
def start : Primitive → Pt
  | .line s _ => s
  | .arc s _ _ _ => s
  | .quad s _ _ => s
  | .cubic s _ _ _ => s
  | .other s _ => s

/-- The `end` attribute of a segment (named `stop` since `end` is a
keyword). -/
def stop : Primitive → Pt
  | .line _ e => e
  | .arc _ e _ _ => e
  | .quad _ _ e => e
  | .cubic _ _ _ e => e
  | .other _ e => e

/-- True for the four kinds handled by the `isinstance` dispatch of
`_get_points`. -/
def supported : Primitive → Bool
  | .other _ _ => false
  | _ => true

end Primitive

/-- The numpy `linspace(a, b, n)` sampling: `n` values from `a` to `b`
inclusive of both endpoints (for `n ≥ 2`); `[a]` for `n = 1`, `[]` for
`n = 0`. -/
def linspace (a b : ℚ) (n : ℕ) : List ℚ :=
  if n = 0 then []
  else if n = 1 then [a]
  else (List.range n).map (fun (i : ℕ) => a + (b - a) * (i : ℚ) / ((n : ℚ) - 1))

/-- Evaluation of a point formula at each parameter value while folding
every produced point into the running bounding box; this is the shape
shared by the curve flatteners (`[get_point(t) for t in linspace ...]`
with `get_point` updating `self.largest_x` / `self.largest_y`). -/
def samplePoints (f : ℚ → Pt) (ts : List ℚ) (b : BBox) : List Pt × BBox :=
  ts.foldl (fun acc t => (acc.1 ++ [f t], bbUpdate acc.2 (f t))) ([], b)

/-- GcodeGenerator._line_to_points: returns `[start, end]` and updates
the bounding box with both endpoints. -/
def line_to_points (s e : Pt) (b : BBox) : List Pt × BBox :=
  ([s, e],
    ⟨max b.largest_x (max s.re e.re), max b.largest_y (max s.im e.im)⟩)

/-- Quadratic Bézier sample of `_quadricbezier_to_points.get_point`:
the source computes the real and imaginary parts separately with the
standard quadratic formula. -/
def quadPoint (s c e : Pt) (t : ℚ) : Pt :=
  ⟨(1 - t) ^ 2 * s.re + 2 * (1 - t) * t * c.re + t ^ 2 * e.re,
    (1 - t) ^ 2 * s.im + 2 * (1 - t) * t * c.im + t ^ 2 * e.im⟩

/-- Cubic Bézier sample of `_cubicbezier_to_points.get_point`. -/
def cubicPoint (s c1 c2 e : Pt) (t : ℚ) : Pt :=
  ⟨(1 - t) ^ 3 * s.re + 3 * (1 - t) ^ 2 * t * c1.re
      + 3 * (1 - t) * t ^ 2 * c2.re + t ^ 3 * e.re,
    (1 - t) ^ 3 * s.im + 3 * (1 - t) ^ 2 * t * c1.im
      + 3 * (1 - t) * t ^ 2 * c2.im + t ^ 3 * e.im⟩

/-- GcodeGenerator._quadricbezier_to_points: `resolution` samples of the
quadratic formula at `linspace(0, 1, resolution)`. -/
def quadricbezier_to_points (s c e : Pt) (res : ℕ) (b : BBox) : List Pt × BBox :=
  samplePoints (quadPoint s c e) (linspace 0 1 res) b

/-- GcodeGenerator._cubicbezier_to_points: `resolution` samples of the
cubic formula at `linspace(0, 1, resolution)`. -/
def cubicbezier_to_points (s c1 c2 e : Pt) (res : ℕ) (b : BBox) : List Pt × BBox :=
  samplePoints (cubicPoint s c1 c2 e) (linspace 0 1 res) b

/-- Residual of the nonlinear system `ellipse_system` of
`_arc_to_points`: `c + radius * exp(i*t) * exp_phi` minus the endpoint,
split into real and imaginary parts for each of the two endpoints.
Note `radius` is the complex `rx + i*ry` and the products are complex
multiplications, exactly as in the source. -/
def ellipse_system (env : NumEnv) (arc : ArcRec) (xc yc t1 t2 : ℚ) :
    ℚ × ℚ × ℚ × ℚ :=
  let exp_phi := cexp env (arc.rotation * env.pi / 180)
  let c : Pt := ⟨xc, yc⟩
  let rhs1 := c.add ((arc.radius.cmul (cexp env t1)).cmul exp_phi)
  let rhs2 := c.add ((arc.radius.cmul (cexp env t2)).cmul exp_phi)
  (rhs1.re - arc.start.re, rhs1.im - arc.start.im,
    rhs2.re - arc.stop.re, rhs2.im - arc.stop.im)

/-- Arc sample at angular parameter `t`:
`center + radius * exp(1j*theta) * exp_phi`. -/
def arcPoint (env : NumEnv) (center radius : Pt) (phi : ℚ) (t : ℚ) : Pt :=
  center.add ((radius.cmul (cexp env t)).cmul (cexp env phi))

/-- GcodeGenerator._arc_to_points: solve `ellipse_system` by
`scipy.optimize.fsolve` (modelled by `env.solveArc`; the `cast(int, xc)`
in the source is `typing.cast`, a runtime no-op, so the center keeps
full precision), wrap `theta2` by `2*pi` when it is below `theta1`, and
sample `curve_resolution` points over `linspace(theta1, theta2, ...)`,
folding each into the bounding box.  The solver result is used
unconditionally: the source performs no convergence check and has no
error path here. -/
def arc_to_points (env : NumEnv) (arc : ArcRec) (res : ℕ) (b : BBox) :
    List Pt × BBox :=
  let phi := arc.rotation * env.pi / 180
  let sol := env.solveArc arc
  let center : Pt := ⟨sol.1, sol.2.1⟩
  let theta1 := sol.2.2.1
  let theta2 := sol.2.2.2
  let theta2 := if theta2 < theta1 then theta2 + 2 * env.pi else theta2
  samplePoints (arcPoint env center arc.radius phi) (linspace theta1 theta2 res) b

/-- GcodeGenerator._get_overcut: direction from `last_point` toward
`shape_start` (the arbitrary fallback `(1, 1)` when the distance is
zero), overshooting `shape_start` by `blade_offset` along it. -/
def get_overcut (env : NumEnv) (blade_offset : ℚ) (shape_start last_point : Pt) : Pt :=
  let distance := pyDist env last_point shape_start
  if distance = 0 then
    shape_start.add (Pt.smul blade_offset ⟨1, 1⟩)
  else
    shape_start.add (Pt.smul blade_offset ((shape_start.sub last_point).sdiv distance))

/-- A point of the toolpath stream together with its raised flag
(dataclass `GcodePoint`). -/
structure GcodePoint where
  point : Pt
  raised : Bool
deriving DecidableEq, Repr

/-- GcodePoint.get_gcode of `svg_slicer`: the corrected coordinates are
the point plus the configured start offset (no scale factor appears in
this serializer).  A raised point emits the lift fragment, the
travel-feed change, the move, the normal-feed change and the unlift
fragment; a non-raised point emits a single move. -/
def GcodePoint.get_gcode (self : GcodePoint) (options : SlicingOptions) : List GLine :=
  let corrected_x := self.point.re + options.start_point.re
  let corrected_y := self.point.im + options.start_point.im
  if self.raised then
    (options.lift_gcode.map GLine.raw)
      ++ [GLine.feed options.travel_feedrate,
          GLine.move corrected_x corrected_y,
          GLine.feed options.normal_feedrate]
      ++ (options.unlift_gcode.map GLine.raw)
  else
    [GLine.move corrected_x corrected_y]

/-- GcodeGenerator._extend_gcode_points: append the given points to the
stream, the first with the given flag, all later ones with `False`. -/
def extend_gcode_points (points : List GcodePoint) :
    List Pt → Bool → List GcodePoint
  | [], _ => points
  | p :: rest, new_shape =>
      extend_gcode_points (points ++ [⟨p, new_shape⟩]) rest false

/-- Loop state of `GcodeGenerator._get_points`: the accumulated stream,
the last flattened point list (`new_points`), the previous primitive's
end, the current shape's start, the pending raise flag, and the running
bounding box. -/
structure GPState where
  points : List GcodePoint
  new_points : List Pt
  prev_end : Pt
  shape_start : Pt
  raised : Bool
  bbox : BBox

/-- Flattening dispatch of `_get_points`: the `isinstance` chain over
the four supported kinds; `none` models the `continue` branch. -/
def flattenPrim (env : NumEnv) (res : ℕ) (p : Primitive) (b : BBox) :
    Option (List Pt × BBox) :=
  match p with
  | .line s e => some (line_to_points s e b)
  | .arc s e radius rotation => some (arc_to_points env ⟨s, e, radius, rotation⟩ res b)
  | .quad s c e => some (quadricbezier_to_points s c e res b)
  | .cubic s c1 c2 e => some (cubicbezier_to_points s c1 c2 e res b)
  | .other _ _ => none

/-- Discontinuity block at the top of the inner loop of `_get_points`:
on an endpoint discontinuity set the pending raise, append the overcut
closing point of the previous shape (when at least two points were
flattened before) and remember the new shape start. -/
def discontinuityStep (env : NumEnv) (opts : SlicingOptions) (st : GPState)
    (subpath : Primitive) : GPState :=
  if subpath.start = st.prev_end then st
  else
    let st := { st with raised := true }
    let st :=
      if 2 ≤ st.new_points.length then
        let over := get_overcut env opts.blade_offset st.shape_start
          (st.new_points.getD (st.new_points.length - 2) ⟨0, 0⟩)
        { st with points := extend_gcode_points st.points [over] false }
      else st
    { st with shape_start := subpath.start }

/-- Dispatch block of the inner loop of `_get_points`: flatten the
segment (skipping unsupported kinds via `continue`), append its points
with the pending flag on the first one, clear the flag, and advance the
previous-end and bounding-box state. -/
def dispatchStep (env : NumEnv) (opts : SlicingOptions) (st : GPState)
    (subpath : Primitive) : GPState :=
  match flattenPrim env opts.curve_resolution subpath st.bbox with
  | none => st
  | some (new_points, bbox) =>
      { st with
        points := extend_gcode_points st.points new_points st.raised
        new_points := new_points
        raised := false
        prev_end := subpath.stop
        bbox := bbox }

/-- One iteration of the inner loop of `_get_points` on segment
`subpath`: the discontinuity block followed by the dispatch block. -/
def getPointsStep (env : NumEnv) (opts : SlicingOptions) (st : GPState)
    (subpath : Primitive) : GPState :=
  dispatchStep env opts (discontinuityStep env opts st subpath) subpath

/-- GcodeGenerator._get_points: walk every segment of every path.
`paths[0][0].start` raises IndexError when the path tuple or its first
path is empty; the closing `new_points[-2]` access raises IndexError
when fewer than two points were flattened by the last processed
segment.  The bounding box starts from the caller's running value
(0, 0) for a fresh generator). -/
def get_points (env : NumEnv) (opts : SlicingOptions) (b0 : BBox)
    (paths : List (List Primitive)) : Except PyErr (List GcodePoint × BBox) := do
  let first ←
    match paths.head? with
    | none => Except.error PyErr.indexError
    | some p0 =>
      match p0.head? with
      | none => Except.error PyErr.indexError
      | some prim => Except.ok prim
  let st0 : GPState := ⟨[], [], ⟨0, 0⟩, first.start, false, b0⟩
  let st := paths.foldl (fun st path => path.foldl (getPointsStep env opts) st) st0
  if 2 ≤ st.new_points.length then
    let over := get_overcut env opts.blade_offset st.shape_start
      (st.new_points.getD (st.new_points.length - 2) ⟨0, 0⟩)
    Except.ok (extend_gcode_points st.points [over] false, st.bbox)
  else
    Except.error PyErr.indexError

/-- Header fragment of `svg_slicer/gcode_generator.py`. -/
def HEADER : List String := ["; Generated with svg-slicer", "", ""]

/-- Deletion step at the top of `GcodeGenerator.generate_gcode`: when
the last segment of the last path is a Line whose endpoints are closer
than 0.001 (complex `abs`, hence `env.sqrt` of the squared chord), it is
deleted (`del paths[-1][-1]`); the indexing `paths[-1][-1]` raises
IndexError when the tuple or its last path is empty. -/
def trim_small_line (env : NumEnv) (paths : List (List Primitive)) :
    Except PyErr (List (List Primitive)) :=
  match paths.getLast? with
  | none => Except.error PyErr.indexError
  | some lastPath =>
    match lastPath.getLast? with
    | none => Except.error PyErr.indexError
    | some prim =>
      match prim with
      | .line s e =>
          if env.sqrt ((s.re - e.re) ^ 2 + (s.im - e.im) ^ 2) < 1 / 1000 then
            Except.ok (paths.dropLast ++ [lastPath.dropLast])
          else Except.ok paths
      | _ => Except.ok paths

/-- Serialization tail of `GcodeGenerator.generate_gcode`: the header,
the configured start fragment, the per-point instructions, and the
configured end fragment. -/
def assemble_gcode (env : NumEnv) (opts : SlicingOptions) (b0 : BBox)
    (paths : List (List Primitive)) : Except PyErr (List GLine × List GcodePoint) := do
  let res ← get_points env opts b0 paths
  let pts := res.1
  Except.ok
    ((HEADER.map GLine.raw) ++ (opts.start_gcode.map GLine.raw)
        ++ (pts.map (fun p => p.get_gcode opts)).flatten
        ++ (opts.end_gcode.map GLine.raw),
      pts)

/-- GcodeGenerator.generate_gcode on already-parsed paths: drop a
trailing tiny Line if present, then build the stream and serialize. -/
def generate_gcode (env : NumEnv) (opts : SlicingOptions)
    (paths : List (List Primitive)) : Except PyErr (List GLine × List GcodePoint) := do
  let paths ← trim_small_line env paths
  assemble_gcode env opts ⟨0, 0⟩ paths

/-! Definitions from `src/svg2gcode/gcode_generator.py`, the second
generator variant.  Its start point and maximum extents are module
constants (`START_X = 10`, `START_Y = 10`, `MAX_X = 100`, `MAX_Y = 50`);
`get_scale` is parametrized by the two maxima so that the spec's
"constraint unset" case (a falsy value, i.e. 0 or None) is expressible —
the source tests them with Python truthiness (`if MAX_X:`). -/

/-- Module constant `START_X` of `svg2gcode`. -/
def START_X : ℚ := 10

/-- Module constant `START_Y` of `svg2gcode`. -/
def START_Y : ℚ := 10

/-- Python float division: raises ZeroDivisionError on a zero divisor. -/
def pyDiv (a b : ℚ) : Except PyErr ℚ :=
  if b = 0 then Except.error PyErr.zeroDivision else Except.ok (a / b)

/-- Python truthiness of an optional float: false for `None` and for
`0.0`. -/
def truthy : Option ℚ → Bool
  | none => false
  | some v => v != 0

/-- svg2gcode.get_scale, with the module constants `MAX_X` and `MAX_Y`
as the parameters `mx`, `my` (100 and 50 in the source): each truthy
maximum is divided by the corresponding observed extent (a Python float
division, faulting on a zero extent), then the branch ladder on the
truthiness of the two candidate factors picks the smaller factor, the
single set one, or 1.0. -/
def get_scale (mx my x y : ℚ) : Except PyErr ℚ := do
  let x_scale : Option ℚ ←
    if mx ≠ 0 then do pure (some (← pyDiv mx x)) else pure none
  let y_scale : Option ℚ ←
    if my ≠ 0 then do pure (some (← pyDiv my y)) else pure none
  if truthy x_scale ∧ truthy y_scale then
    pure (if x_scale.getD 0 < y_scale.getD 0 then x_scale.getD 0 else y_scale.getD 0)
  else if truthy x_scale ∧ ¬ truthy y_scale then
    pure (x_scale.getD 0)
  else if ¬ truthy x_scale ∧ truthy y_scale then
    pure (y_scale.getD 0)
  else
    pure 1

/-- GcodePoint.get_gcode of `svg2gcode`: the corrected coordinates are
the point scaled by the given factor plus the constant start offset
(`START_X`, `START_Y`); raised points wrap the move in the constant
lift/unlift lines and feed changes (`TRAVEL_FEEDRATE = 4000`,
`NORMAL_FEEDRATE = 500`). -/
def get_gcode2 (scale : ℚ) (point : Pt) (raised : Bool) : List GLine :=
  let corrected_x := point.re * scale + START_X
  let corrected_y := point.im * scale + START_Y
  if raised then
    [GLine.raw "G1 Z10",
      GLine.feed 4000,
      GLine.move corrected_x corrected_y,
      GLine.feed 500,
      GLine.raw "G1 Z0"]
  else
    [GLine.move corrected_x corrected_y]

/-- The move coordinates written by a list of emitted lines, in order. -/
def movesOf (ls : List GLine) : List (ℚ × ℚ) :=
  ls.filterMap (fun l => match l with
    | GLine.move x y => some (x, y)
    | _ => none)

/-- Exact rational square root helper, agreeing with the real square
root whenever numerator and denominator are perfect squares (in
particular at 0); used to instantiate `NumEnv.sqrt` on concrete inputs
chosen so that only such values are ever taken. -/
def ratSqrt (q : ℚ) : ℚ := (Nat.sqrt q.num.toNat : ℚ) / (Nat.sqrt q.den : ℚ)

/-- Concrete numeric environment for evaluating the embedding on
concrete arc-free inputs: exact square root, arbitrary trig and solver
(never relevant on the inputs it is used with). -/
def envQ : NumEnv :=
  ⟨ratSqrt, fun _ => 1, fun _ => 0, 0, fun _ => (0, 0, 0, 0)⟩

/-! Spec-side definitions and concrete fixtures used by the theorems. -/

/-- Serialization of one raised ToolPoint exactly as the spec's claim
describes it (spec 4.6): lift fragment, travel-feed change, move to the
corrected coordinates, normal-feed change, unlift fragment, and then —
as for every ToolPoint — a final move to the corrected coordinates. -/
def claimRaisedSerialize (options : SlicingOptions) (p : Pt) : List GLine :=
  let corrected_x := p.re + options.start_point.re
  let corrected_y := p.im + options.start_point.im
  (options.lift_gcode.map GLine.raw)
    ++ [GLine.feed options.travel_feedrate,
        GLine.move corrected_x corrected_y,
        GLine.feed options.normal_feedrate]
    ++ (options.unlift_gcode.map GLine.raw)
    ++ [GLine.move corrected_x corrected_y]

/-- Concrete options mirroring the repository's test fixture, with
blade offset 0. -/
def optsA : SlicingOptions :=
  ⟨⟨0, 0⟩, none, 500, 1000, 10, 0, ["; start"], ["; end"], ["G1 Z10"], ["G1 Z0"]⟩

/-- Concrete options with a nonzero blade offset of 7. -/
def optsB : SlicingOptions :=
  ⟨⟨0, 0⟩, none, 500, 1000, 10, 7, ["; start"], ["; end"], ["G1 Z10"], ["G1 Z0"]⟩

/-- Appending lists distributes over extracting the move coordinates. -/
theorem movesOf_append (a b : List GLine) :
    movesOf (a ++ b) = movesOf a ++ movesOf b := by
  simp [movesOf, List.filterMap_append]

/-- Unfolding `movesOf` on the empty line list. -/
theorem movesOf_nil : movesOf [] = [] := rfl

/-- A leading fragment line contributes no move coordinates. -/
theorem movesOf_raw_cons (s : String) (ls : List GLine) :
    movesOf (GLine.raw s :: ls) = movesOf ls := rfl

/-- A leading feed change contributes no move coordinates. -/
theorem movesOf_feed_cons (r : ℤ) (ls : List GLine) :
    movesOf (GLine.feed r :: ls) = movesOf ls := rfl

/-- A leading move contributes its coordinate pair. -/
theorem movesOf_move_cons (x y : ℚ) (ls : List GLine) :
    movesOf (GLine.move x y :: ls) = (x, y) :: movesOf ls := rfl

/-- Fragment lines contribute no move coordinates. -/
theorem movesOf_raw_map (ss : List String) :
    movesOf (ss.map GLine.raw) = [] := by
  induction ss with
  | nil => rfl
  | cons s rest ih => rw [List.map_cons, movesOf_raw_cons]; exact ih

/-- C2 counterexample: for the raised point (1,1) under the fixture
options, the serializer's output is not the claimed six-part sequence —
the code's raised branch ends with the unlift fragment and emits no
final linear move (the outputs differ already in length: 5 lines
against 6). -/
theorem raised_gcode_lacks_trailing_move :
    GcodePoint.get_gcode ⟨⟨1, 1⟩, true⟩ optsA ≠ claimRaisedSerialize optsA ⟨1, 1⟩ := by
  intro h
  have hlen := congrArg List.length h
  simp [GcodePoint.get_gcode, claimRaisedSerialize, optsA] at hlen

/-- C2 amended: for every raised ToolPoint the serializer emits exactly
the lift fragment, a travel-feed change, the move to the corrected
coordinates, a normal-feed change and the unlift fragment — the claimed
sequence minus its final move (appending that one move yields exactly
the claimed sequence); a non-raised ToolPoint emits the single move. -/
theorem gcode_emission_order (options : SlicingOptions) (p : Pt) :
    GcodePoint.get_gcode ⟨p, true⟩ options
        ++ [GLine.move (p.re + options.start_point.re) (p.im + options.start_point.im)]
      = claimRaisedSerialize options p
    ∧ GcodePoint.get_gcode ⟨p, false⟩ options
      = [GLine.move (p.re + options.start_point.re) (p.im + options.start_point.im)] := by
  constructor
  · simp [GcodePoint.get_gcode, claimRaisedSerialize]
  · simp [GcodePoint.get_gcode]

/-- C3 counterexample: the svg_slicer serializer writes the move for
the point (1,0) with zero start offset at coordinates (1,0), which is
not `point * scale + offset` for the scale factor 2 — this serializer
applies no scale factor at all. -/
theorem slicer_move_ignores_scale :
    movesOf (GcodePoint.get_gcode ⟨⟨1, 0⟩, false⟩ optsA) = [(1, 0)]
    ∧ ((1 : ℚ), (0 : ℚ)) ≠ ((1 * 2 + 0 : ℚ), (0 * 2 + 0 : ℚ)) := by
  constructor
  · norm_num [GcodePoint.get_gcode, optsA, movesOf_move_cons, movesOf_nil]
  · norm_num

/-- C3 amended: the svg2gcode serializer writes the move coordinates
`point * scale + start` (start being the module constants (10,10)) for
every point, scale and raised flag; the svg_slicer serializer under src
applies no scale: its move coordinates are `point + start_offset`. -/
theorem move_coordinates_formula (scale : ℚ) (p : Pt) (r : Bool)
    (options : SlicingOptions) :
    movesOf (get_gcode2 scale p r)
      = [(p.re * scale + START_X, p.im * scale + START_Y)]
    ∧ movesOf (GcodePoint.get_gcode ⟨p, r⟩ options)
      = [(p.re + options.start_point.re, p.im + options.start_point.im)] := by
  constructor
  · cases r <;>
      simp [get_gcode2, movesOf_append, movesOf_raw_map, movesOf_move_cons,
        movesOf_feed_cons, movesOf_raw_cons, movesOf_nil]
  · cases r <;>
      simp [GcodePoint.get_gcode, movesOf_append, movesOf_raw_map,
        movesOf_move_cons, movesOf_feed_cons, movesOf_nil]

/-- Unfolding lemma: binding a successful Except value. -/
theorem except_bind_ok {α β : Type} (a : α) (f : α → Except PyErr β) :
    (Except.ok a : Except PyErr α) >>= f = f a := rfl

/-- Unfolding lemma: binding a failed Except value propagates the
error. -/
theorem except_bind_error {α β : Type} (e : PyErr) (f : α → Except PyErr β) :
    (Except.error e : Except PyErr α) >>= f = Except.error e := rfl

/-- Unfolding lemma: `pure` into the Except monad. -/
theorem except_pure {α : Type} (a : α) :
    (pure a : Except PyErr α) = Except.ok a := rfl

/-- C5 counterexample: a zero observed x extent with the source's
constraint constants (100, 50) makes `get_scale` perform the float
division `MAX_X / 0`, which is the uncaught ZeroDivisionError — no
GeometryError is signalled (no such error exists in the code). -/
theorem get_scale_zero_extent_faults :
    get_scale 100 50 0 5 = Except.error PyErr.zeroDivision := by
  simp [get_scale, pyDiv, except_bind_ok, except_bind_error, except_pure]

/-- C5 amended: whenever the observed extent on a truthy-constrained
axis is zero — the x axis (`MAX_X / 0` faults immediately) or the y
axis (`MAX_Y / 0` faults after the x division, if attempted, succeeded
or itself faulted) — `get_scale` raises ZeroDivisionError (an uncaught
division fault) instead of signalling a GeometryError. -/
theorem get_scale_zero_extent_raises (mx my x y : ℚ)
    (h : (mx ≠ 0 ∧ x = 0) ∨ (my ≠ 0 ∧ y = 0)) :
    get_scale mx my x y = Except.error PyErr.zeroDivision := by
  rcases h with ⟨hmx, hx⟩ | ⟨hmy, hy⟩
  · subst hx
    simp [get_scale, pyDiv, hmx, except_bind_ok, except_bind_error,
      except_pure]
  · subst hy
    by_cases hmx : mx = 0
    · simp [get_scale, pyDiv, hmx, hmy, except_bind_ok, except_bind_error,
        except_pure]
    · by_cases hx : x = 0
      · subst hx
        simp [get_scale, pyDiv, hmx, except_bind_ok, except_bind_error,
          except_pure]
      · simp [get_scale, pyDiv, hmx, hmy, hx, except_bind_ok,
          except_bind_error, except_pure]

/-- C5 amended, witness at the source constants with a zero y extent
(the x division 100/5 succeeds, then `MAX_Y / 0` faults). -/
theorem get_scale_zero_extent_raises_witness :
    (((100 : ℚ) ≠ 0 ∧ (5 : ℚ) = 0) ∨ ((50 : ℚ) ≠ 0 ∧ (0 : ℚ) = 0))
    ∧ get_scale 100 50 5 0 = Except.error PyErr.zeroDivision :=
  ⟨by decide, get_scale_zero_extent_raises 100 50 5 0 (by decide)⟩

/-- C6: for positive observed extents, `get_scale` returns 1 when both
maxima are unset (falsy), the single per-axis ratio when exactly one is
set, and the minimum of the two per-axis ratios when both are set. -/
theorem get_scale_cases (mx my x y : ℚ) (hx : 0 < x) (hy : 0 < y) :
    get_scale 0 0 x y = Except.ok 1
    ∧ (mx ≠ 0 → get_scale mx 0 x y = Except.ok (mx / x))
    ∧ (my ≠ 0 → get_scale 0 my x y = Except.ok (my / y))
    ∧ (mx ≠ 0 → my ≠ 0 →
        get_scale mx my x y = Except.ok (min (mx / x) (my / y))) := by
  refine ⟨?_, ?_, ?_, ?_⟩
  · simp [get_scale, truthy, except_bind_ok, except_bind_error, except_pure]
  · intro hmx
    simp [get_scale, pyDiv, hx.ne', truthy, hmx, div_ne_zero hmx hx.ne',
      except_bind_ok, except_bind_error, except_pure]
  · intro hmy
    simp [get_scale, pyDiv, hy.ne', truthy, hmy, div_ne_zero hmy hy.ne',
      except_bind_ok, except_bind_error, except_pure]
  · intro hmx hmy
    rcases lt_or_ge (mx / x) (my / y) with h | h
    · simp [get_scale, pyDiv, hx.ne', hy.ne', hmx, hmy, truthy,
        div_ne_zero hmx hx.ne', div_ne_zero hmy hy.ne', h, min_eq_left h.le,
        except_bind_ok, except_bind_error, except_pure]
    · simp [get_scale, pyDiv, hx.ne', hy.ne', hmx, hmy, truthy,
        div_ne_zero hmx hx.ne', div_ne_zero hmy hy.ne',
        not_lt.mpr h, min_eq_right h,
        except_bind_ok, except_bind_error, except_pure]

/-- C6 witness at extents (2, 4) and maxima (20, 40). -/
theorem get_scale_cases_witness :
    (0 : ℚ) < 2 ∧ (0 : ℚ) < 4
    ∧ (get_scale 0 0 2 4 = Except.ok 1
        ∧ ((20 : ℚ) ≠ 0 → get_scale 20 0 2 4 = Except.ok (20 / 2))
        ∧ ((40 : ℚ) ≠ 0 → get_scale 0 40 2 4 = Except.ok (40 / 4))
        ∧ ((20 : ℚ) ≠ 0 → (40 : ℚ) ≠ 0 →
            get_scale 20 40 2 4 = Except.ok (min (20 / 2) (40 / 4)))) :=
  ⟨by decide, by decide, get_scale_cases 20 40 2 4 (by decide) (by decide)⟩

/-- Folding the sampling step over a parameter list appends the mapped
points and folds the bounding box, from any accumulator. -/
theorem samplePoints_go (f : ℚ → Pt) (ts : List ℚ) (acc : List Pt) (b : BBox) :
    ts.foldl (fun a t => (a.1 ++ [f t], bbUpdate a.2 (f t))) (acc, b)
      = (acc ++ ts.map f, ts.foldl (fun bb t => bbUpdate bb (f t)) b) := by
  induction ts generalizing acc b with
  | nil => simp
  | cons t rest ih => simp [ih]

/-- The sampled point list is the parameter list mapped through the
point formula. -/
theorem samplePoints_fst (f : ℚ → Pt) (ts : List ℚ) (b : BBox) :
    (samplePoints f ts b).1 = ts.map f := by
  simp [samplePoints, samplePoints_go]

/-- The linspace sampling always yields exactly `n` values. -/
theorem linspace_length (a b : ℚ) (n : ℕ) : (linspace a b n).length = n := by
  unfold linspace
  by_cases h0 : n = 0
  · simp [h0]
  · by_cases h1 : n = 1
    · simp [h0, h1]
    · rw [if_neg h0, if_neg h1, List.length_map, List.length_range]

/-- C4 counterexample: for the degenerate arc from (0,0) to (5,5) with
collapsed radius (0,0), the environment's solver returns (0,0,0,0),
whose residual in `ellipse_system` is the nonzero (0,0,-5,-5) — no
solution exists, so no bounded solver can converge — and yet
`_arc_to_points` raises nothing: it silently samples a full list of
`curve_resolution` points from the non-converged solution. -/
theorem arc_solver_silent_nonconvergence :
    envQ.solveArc ⟨⟨0, 0⟩, ⟨5, 5⟩, ⟨0, 0⟩, 0⟩ = (0, 0, 0, 0)
    ∧ ellipse_system envQ ⟨⟨0, 0⟩, ⟨5, 5⟩, ⟨0, 0⟩, 0⟩ 0 0 0 0 ≠ (0, 0, 0, 0)
    ∧ (arc_to_points envQ ⟨⟨0, 0⟩, ⟨5, 5⟩, ⟨0, 0⟩, 0⟩ 5 ⟨0, 0⟩).1.length = 5 := by
  refine ⟨rfl, ?_, ?_⟩
  · norm_num [ellipse_system, cexp, envQ, Pt.add, Pt.cmul]
  · simp [arc_to_points, samplePoints_fst, linspace_length]

/-- C4 amended: the arc flattening always terminates and always returns
exactly `curve_resolution` sampled points, for every solver outcome —
including non-converged ones — signalling no error: the iterative solve
is bounded (scipy's fsolve caps its function evaluations), but its
result is used unconditionally and no GeometryError is ever reported. -/
theorem arc_to_points_always_returns (env : NumEnv) (arc : ArcRec)
    (res : ℕ) (b : BBox) :
    (arc_to_points env arc res b).1.length = res := by
  simp [arc_to_points, samplePoints_fst, linspace_length]

/-- The spec's quadratic Bézier formula
`P(t) = (1-t)^2*start + 2(1-t)t*control + t^2*end`, written with the
point operations (to be compared with the source's componentwise
`quadPoint`). -/
def bezierQuadSpec (s c e : Pt) (t : ℚ) : Pt :=
  ((Pt.smul ((1 - t) ^ 2) s).add (Pt.smul (2 * (1 - t) * t) c)).add
    (Pt.smul (t ^ 2) e)

/-- The spec's cubic Bézier formula, with binomial coefficients
1, 3, 3, 1. -/
def bezierCubicSpec (s c1 c2 e : Pt) (t : ℚ) : Pt :=
  (((Pt.smul ((1 - t) ^ 3) s).add (Pt.smul (3 * (1 - t) ^ 2 * t) c1)).add
      (Pt.smul (3 * (1 - t) * t ^ 2) c2)).add
    (Pt.smul (t ^ 3) e)

/-- The source's componentwise quadratic sample agrees with the spec's
formula. -/
theorem quadPoint_eq_spec (s c e : Pt) (t : ℚ) :
    quadPoint s c e t = bezierQuadSpec s c e t := by
  simp only [quadPoint, bezierQuadSpec, Pt.add, Pt.smul, Pt.mk.injEq]

/-- The source's componentwise cubic sample agrees with the spec's
formula. -/
theorem cubicPoint_eq_spec (s c1 c2 e : Pt) (t : ℚ) :
    cubicPoint s c1 c2 e t = bezierCubicSpec s c1 c2 e t := by
  simp only [cubicPoint, bezierCubicSpec, Pt.add, Pt.smul, Pt.mk.injEq]

/-- Unfolding `linspace` in the interesting case of two or more
samples. -/
theorem linspace_two_le (a b : ℚ) (n : ℕ) (h : 2 ≤ n) :
    linspace a b n
      = (List.range n).map
          (fun (i : ℕ) => a + (b - a) * (i : ℚ) / ((n : ℚ) - 1)) := by
  have h0 : n ≠ 0 := by omega
  have h1 : n ≠ 1 := by omega
  simp [linspace, h0, h1]

/-- First element of a map over an initial segment of the naturals. -/
theorem head_map_range {α : Type} (f : ℕ → α) (n : ℕ) (h : 0 < n) :
    ((List.range n).map f).head? = some (f 0) := by
  cases n with
  | zero => omega
  | succ m => rw [List.range_succ_eq_map]; simp

/-- Last element of a map over an initial segment of the naturals. -/
theorem getLast_map_range {α : Type} (f : ℕ → α) (n : ℕ) (h : 0 < n) :
    ((List.range n).map f).getLast? = some (f (n - 1)) := by
  cases n with
  | zero => omega
  | succ m => rw [List.range_succ]; simp

/-- The quadratic flattener's point list, characterized as the map of
the sample formula over the evenly spaced parameters `i / (n - 1)`. -/
theorem quad_points_eq (s c e : Pt) (n : ℕ) (h : 2 ≤ n) (b : BBox) :
    (quadricbezier_to_points s c e n b).1
      = (List.range n).map
          (fun (i : ℕ) => quadPoint s c e ((i : ℚ) / ((n : ℚ) - 1))) := by
  rw [quadricbezier_to_points, samplePoints_fst, linspace_two_le _ _ _ h,
    List.map_map]
  apply List.map_congr_left
  intro i _
  simp only [Function.comp]
  congr 1
  ring

/-- The cubic flattener's point list, characterized the same way. -/
theorem cubic_points_eq (s c1 c2 e : Pt) (n : ℕ) (h : 2 ≤ n) (b : BBox) :
    (cubicbezier_to_points s c1 c2 e n b).1
      = (List.range n).map
          (fun (i : ℕ) => cubicPoint s c1 c2 e ((i : ℚ) / ((n : ℚ) - 1))) := by
  rw [cubicbezier_to_points, samplePoints_fst, linspace_two_le _ _ _ h,
    List.map_map]
  apply List.map_congr_left
  intro i _
  simp only [Function.comp]
  congr 1
  ring

/-- Bézier samples at the endpoints of the parameter interval. -/
theorem quadPoint_zero (s c e : Pt) : quadPoint s c e 0 = s := by
  simp [quadPoint]

/-- Quadratic sample at parameter one is the end point. -/
theorem quadPoint_one (s c e : Pt) : quadPoint s c e 1 = e := by
  simp [quadPoint]

/-- Cubic sample at parameter zero is the start point. -/
theorem cubicPoint_zero (s c1 c2 e : Pt) : cubicPoint s c1 c2 e 0 = s := by
  simp [cubicPoint]

/-- Cubic sample at parameter one is the end point. -/
theorem cubicPoint_one (s c1 c2 e : Pt) : cubicPoint s c1 c2 e 1 = e := by
  simp [cubicPoint]

/-- Cast of the final sample index over the sample count. -/
theorem last_param_eq_one (n : ℕ) (h : 2 ≤ n) :
    (((n - 1 : ℕ) : ℚ)) / ((n : ℚ) - 1) = 1 := by
  have h1 : (1 : ℕ) ≤ n := by omega
  rw [Nat.cast_sub h1]
  have hn : ((n : ℚ)) - 1 ≠ 0 := by
    have : (2 : ℚ) ≤ (n : ℚ) := by exact_mod_cast h
    linarith
  field_simp

/-- C8: for every quadratic and cubic Bézier curve and every resolution
of at least two samples, flattening returns exactly `resolution` points,
the i-th being the spec's Bézier parametric formula evaluated at
`t = i / (resolution - 1)` (the `resolution` values of t linearly spaced
over [0,1]); the first returned point equals the curve's start and the
last equals its end, exactly. -/
theorem bezier_flatten_spec (qs qc qe cs c1 c2 ce : Pt) (n : ℕ) (h : 2 ≤ n)
    (b bb : BBox) :
    ((quadricbezier_to_points qs qc qe n b).1.length = n
      ∧ (quadricbezier_to_points qs qc qe n b).1
          = (List.range n).map
              (fun (i : ℕ) => bezierQuadSpec qs qc qe ((i : ℚ) / ((n : ℚ) - 1)))
      ∧ (quadricbezier_to_points qs qc qe n b).1.head? = some qs
      ∧ (quadricbezier_to_points qs qc qe n b).1.getLast? = some qe)
    ∧ ((cubicbezier_to_points cs c1 c2 ce n bb).1.length = n
      ∧ (cubicbezier_to_points cs c1 c2 ce n bb).1
          = (List.range n).map
              (fun (i : ℕ) => bezierCubicSpec cs c1 c2 ce ((i : ℚ) / ((n : ℚ) - 1)))
      ∧ (cubicbezier_to_points cs c1 c2 ce n bb).1.head? = some cs
      ∧ (cubicbezier_to_points cs c1 c2 ce n bb).1.getLast? = some ce) := by
  have h0 : 0 < n := by omega
  have hq := quad_points_eq qs qc qe n h b
  have hc := cubic_points_eq cs c1 c2 ce n h bb
  refine ⟨⟨?_, ?_, ?_, ?_⟩, ⟨?_, ?_, ?_, ?_⟩⟩
  · rw [hq]; simp
  · rw [hq]
    exact List.map_congr_left (fun i _ => quadPoint_eq_spec qs qc qe _)
  · rw [hq, head_map_range _ _ h0]
    simp [quadPoint_zero]
  · rw [hq, getLast_map_range _ _ h0, last_param_eq_one n h, quadPoint_one]
  · rw [hc]; simp
  · rw [hc]
    exact List.map_congr_left (fun i _ => cubicPoint_eq_spec cs c1 c2 ce _)
  · rw [hc, head_map_range _ _ h0]
    simp [cubicPoint_zero]
  · rw [hc, getLast_map_range _ _ h0, last_param_eq_one n h, cubicPoint_one]

/-- C8 witness at resolution 3. -/
theorem bezier_flatten_spec_witness :
    2 ≤ 3
    ∧ (((quadricbezier_to_points ⟨0, 0⟩ ⟨1, 1⟩ ⟨2, 3⟩ 3 ⟨0, 0⟩).1.length = 3
      ∧ (quadricbezier_to_points ⟨0, 0⟩ ⟨1, 1⟩ ⟨2, 3⟩ 3 ⟨0, 0⟩).1
          = (List.range 3).map
              (fun (i : ℕ) => bezierQuadSpec ⟨0, 0⟩ ⟨1, 1⟩ ⟨2, 3⟩ ((i : ℚ) / ((3 : ℚ) - 1)))
      ∧ (quadricbezier_to_points ⟨0, 0⟩ ⟨1, 1⟩ ⟨2, 3⟩ 3 ⟨0, 0⟩).1.head? = some ⟨0, 0⟩
      ∧ (quadricbezier_to_points ⟨0, 0⟩ ⟨1, 1⟩ ⟨2, 3⟩ 3 ⟨0, 0⟩).1.getLast? = some ⟨2, 3⟩)
    ∧ ((cubicbezier_to_points ⟨0, 0⟩ ⟨1, 1⟩ ⟨2, 2⟩ ⟨3, 4⟩ 3 ⟨0, 0⟩).1.length = 3
      ∧ (cubicbezier_to_points ⟨0, 0⟩ ⟨1, 1⟩ ⟨2, 2⟩ ⟨3, 4⟩ 3 ⟨0, 0⟩).1
          = (List.range 3).map
              (fun (i : ℕ) => bezierCubicSpec ⟨0, 0⟩ ⟨1, 1⟩ ⟨2, 2⟩ ⟨3, 4⟩ ((i : ℚ) / ((3 : ℚ) - 1)))
      ∧ (cubicbezier_to_points ⟨0, 0⟩ ⟨1, 1⟩ ⟨2, 2⟩ ⟨3, 4⟩ 3 ⟨0, 0⟩).1.head? = some ⟨0, 0⟩
      ∧ (cubicbezier_to_points ⟨0, 0⟩ ⟨1, 1⟩ ⟨2, 2⟩ ⟨3, 4⟩ 3 ⟨0, 0⟩).1.getLast? = some ⟨3, 4⟩)) :=
  ⟨by decide,
    bezier_flatten_spec ⟨0, 0⟩ ⟨1, 1⟩ ⟨2, 3⟩ ⟨0, 0⟩ ⟨1, 1⟩ ⟨2, 2⟩ ⟨3, 4⟩ 3
      (by decide) ⟨0, 0⟩ ⟨0, 0⟩⟩

/-- The discontinuity block never touches the `new_points` buffer. -/
theorem discontinuityStep_new_points (env : NumEnv) (opts : SlicingOptions)
    (st : GPState) (p : Primitive) :
    (discontinuityStep env opts st p).new_points = st.new_points := by
  simp only [discontinuityStep]
  split
  · rfl
  · split <;> rfl

/-- The discontinuity block never touches the previous-end state. -/
theorem discontinuityStep_prev_end (env : NumEnv) (opts : SlicingOptions)
    (st : GPState) (p : Primitive) :
    (discontinuityStep env opts st p).prev_end = st.prev_end := by
  simp only [discontinuityStep]
  split
  · rfl
  · split <;> rfl

/-- The discontinuity block never touches the bounding box. -/
theorem discontinuityStep_bbox (env : NumEnv) (opts : SlicingOptions)
    (st : GPState) (p : Primitive) :
    (discontinuityStep env opts st p).bbox = st.bbox := by
  simp only [discontinuityStep]
  split
  · rfl
  · split <;> rfl

/-- The discontinuity block sets the pending raise exactly on an
endpoint mismatch. -/
theorem discontinuityStep_raised (env : NumEnv) (opts : SlicingOptions)
    (st : GPState) (p : Primitive) :
    (discontinuityStep env opts st p).raised
      = (if p.start = st.prev_end then st.raised else true) := by
  simp only [discontinuityStep]
  split
  · simp_all
  · split <;> simp_all

/-- Processing an unsupported segment leaves the `new_points` buffer
untouched when it is empty: the overcut branch requires at least two
previously flattened points and the `isinstance` dispatch falls through
to `continue`. -/
theorem getPointsStep_unsupported (env : NumEnv) (opts : SlicingOptions)
    (st : GPState) (p : Primitive) (hp : p.supported = false)
    (hst : st.new_points = []) :
    (getPointsStep env opts st p).new_points = [] := by
  cases p with
  | other s e =>
    simp only [getPointsStep, dispatchStep, flattenPrim]
    rw [discontinuityStep_new_points, hst]
  | line s e => simp [Primitive.supported] at hp
  | arc s e r rot => simp [Primitive.supported] at hp
  | quad s c e => simp [Primitive.supported] at hp
  | cubic s c1 c2 e => simp [Primitive.supported] at hp

/-- Folding a run of unsupported segments never fills the `new_points`
buffer. -/
theorem foldl_unsupported_new_points (env : NumEnv) (opts : SlicingOptions)
    (l : List Primitive) (h : ∀ q ∈ l, q.supported = false) (st : GPState)
    (hst : st.new_points = []) :
    (l.foldl (getPointsStep env opts) st).new_points = [] := by
  induction l generalizing st with
  | nil => simpa using hst
  | cons q rest ih =>
    simp only [List.foldl_cons]
    exact ih (fun x hx => h x (List.mem_cons_of_mem _ hx)) _
      (getPointsStep_unsupported env opts st q (h q (List.mem_cons_self _ _)) hst)

/-- Walking paths made only of unsupported segments never fills the
`new_points` buffer. -/
theorem foldl_paths_unsupported (env : NumEnv) (opts : SlicingOptions)
    (paths : List (List Primitive))
    (h : ∀ p ∈ paths, ∀ q ∈ p, q.supported = false) (st : GPState)
    (hst : st.new_points = []) :
    ((paths.foldl (fun st path => path.foldl (getPointsStep env opts) st) st).new_points)
      = [] := by
  induction paths generalizing st with
  | nil => simpa using hst
  | cons p rest ih =>
    simp only [List.foldl_cons]
    exact ih (fun x hx => h x (List.mem_cons_of_mem _ hx)) _
      (foldl_unsupported_new_points env opts p (h p (List.mem_cons_self _ _)) st hst)

/-- C9: for every path set that is empty or whose segments all fall
outside the four supported kinds, `_get_points` raises an uncaught
IndexError (from `paths[0][0]` on an empty collection, or from
`new_points[-2]` in the closing overcut step) — it neither returns an
empty ToolPoint stream nor signals a GeometryError; any output at all
requires a supported segment. -/
theorem unsupported_paths_index_error (env : NumEnv) (opts : SlicingOptions)
    (b0 : BBox) (paths : List (List Primitive))
    (h : ∀ p ∈ paths, ∀ q ∈ p, q.supported = false) :
    get_points env opts b0 paths = Except.error PyErr.indexError := by
  match paths, h with
  | [], _ => rfl
  | [] :: rest, _ => rfl
  | (q :: qs) :: rest, h =>
    have hfold := foldl_paths_unsupported env opts ((q :: qs) :: rest) h
      ⟨[], [], ⟨0, 0⟩, q.start, false, b0⟩ rfl
    simp only [get_points, List.head?_cons, except_bind_ok]
    rw [if_neg]
    rw [hfold]
    simp

/-- C9 witness: a single unsupported segment. -/
theorem unsupported_paths_index_error_witness :
    (∀ p ∈ [[Primitive.other ⟨1, 1⟩ ⟨2, 2⟩]], ∀ q ∈ p, q.supported = false)
    ∧ get_points envQ optsA ⟨0, 0⟩ [[Primitive.other ⟨1, 1⟩ ⟨2, 2⟩]]
        = Except.error PyErr.indexError :=
  ⟨by decide,
    unsupported_paths_index_error envQ optsA ⟨0, 0⟩
      [[Primitive.other ⟨1, 1⟩ ⟨2, 2⟩]] (by decide)⟩

/-- Exact square root of zero under the rational square-root helper. -/
theorem ratSqrt_zero : ratSqrt 0 = 0 := by
  simp [ratSqrt]

/-- C10: whenever the last segment of the last parsed path is a Line
whose endpoints are closer than 0.001, `generate_gcode` deletes that
segment before assembling the toolpath: the produced gcode and point
stream are exactly those of the assembly pipeline run on the path set
with that one segment removed (so it contributes no ToolPoints and no
instructions, and every other segment is processed unchanged). -/
theorem tiny_final_line_deleted (env : NumEnv) (opts : SlicingOptions)
    (paths : List (List Primitive)) (lastPath : List Primitive) (s e : Pt)
    (hlast : paths.getLast? = some lastPath)
    (hprim : lastPath.getLast? = some (Primitive.line s e))
    (hsmall : env.sqrt ((s.re - e.re) ^ 2 + (s.im - e.im) ^ 2) < 1 / 1000) :
    generate_gcode env opts paths
      = assemble_gcode env opts ⟨0, 0⟩ (paths.dropLast ++ [lastPath.dropLast]) := by
  unfold generate_gcode trim_small_line
  simp only [hlast]
  simp only [hprim]
  rw [if_pos hsmall, except_bind_ok]

/-- C10 witness: a path ending in a zero-length Line. -/
theorem tiny_final_line_deleted_witness :
    ([[Primitive.line ⟨0, 0⟩ ⟨3, 4⟩, Primitive.line ⟨3, 4⟩ ⟨3, 4⟩]] :
          List (List Primitive)).getLast?
        = some [Primitive.line ⟨0, 0⟩ ⟨3, 4⟩, Primitive.line ⟨3, 4⟩ ⟨3, 4⟩]
    ∧ ([Primitive.line ⟨0, 0⟩ ⟨3, 4⟩, Primitive.line ⟨3, 4⟩ ⟨3, 4⟩] :
          List Primitive).getLast?
        = some (Primitive.line ⟨3, 4⟩ ⟨3, 4⟩)
    ∧ envQ.sqrt (((3 : ℚ) - 3) ^ 2 + ((4 : ℚ) - 4) ^ 2) < 1 / 1000
    ∧ generate_gcode envQ optsA
          [[Primitive.line ⟨0, 0⟩ ⟨3, 4⟩, Primitive.line ⟨3, 4⟩ ⟨3, 4⟩]]
        = assemble_gcode envQ optsA ⟨0, 0⟩
            (([[Primitive.line ⟨0, 0⟩ ⟨3, 4⟩, Primitive.line ⟨3, 4⟩ ⟨3, 4⟩]] :
                List (List Primitive)).dropLast
              ++ [([Primitive.line ⟨0, 0⟩ ⟨3, 4⟩, Primitive.line ⟨3, 4⟩ ⟨3, 4⟩] :
                List Primitive).dropLast]) :=
  ⟨by decide, by decide, by norm_num [envQ, ratSqrt_zero],
    tiny_final_line_deleted envQ optsA _ _ ⟨3, 4⟩ ⟨3, 4⟩ (by decide) (by decide)
      (by norm_num [envQ, ratSqrt_zero])⟩

/-- C1 counterexample: for the single Line from (0,0) to (3,4) with
blade offset 7, the closing overcut point (7,7) is appended to the
stream, but the bounding box at the end of assembly (hence at any later
scale computation) is (3,4): the overcut point lies outside it. -/
theorem bbox_misses_overcut_point :
    get_points envQ optsB ⟨0, 0⟩ [[Primitive.line ⟨0, 0⟩ ⟨3, 4⟩]]
      = Except.ok
          ([⟨⟨0, 0⟩, false⟩, ⟨⟨3, 4⟩, false⟩, ⟨⟨7, 7⟩, false⟩], ⟨3, 4⟩)
    ∧ ¬ ((7 : ℚ) ≤ 3) := by
  constructor
  · norm_num [get_points, getPointsStep, dispatchStep, discontinuityStep,
      flattenPrim, line_to_points, extend_gcode_points, get_overcut, pyDist,
      envQ, optsB, ratSqrt_zero, Primitive.start, Primitive.stop, Pt.add,
      Pt.smul, Pt.sub, Pt.sdiv, except_bind_ok, except_pure, max_def]
  · norm_num

/-- The point list a supported segment flattens to.  The source threads
the running bounding box through the flatteners, but the box never
feeds back into the sampled points, so the list is well defined
independently of it. -/
def flatPts (env : NumEnv) (res : ℕ) : Primitive → List Pt
  | .line s e => [s, e]
  | .arc s e radius rotation =>
      (arc_to_points env ⟨s, e, radius, rotation⟩ res ⟨0, 0⟩).1
  | .quad s c e => (quadricbezier_to_points s c e res ⟨0, 0⟩).1
  | .cubic s c1 c2 e => (cubicbezier_to_points s c1 c2 e res ⟨0, 0⟩).1
  | .other _ _ => []

/-- The bounding box returned by the sampler is the fold of the box
updates over the sampled points. -/
theorem samplePoints_snd (f : ℚ → Pt) (ts : List ℚ) (b : BBox) :
    (samplePoints f ts b).2 = ts.foldl (fun bb t => bbUpdate bb (f t)) b := by
  simp [samplePoints, samplePoints_go]

/-- Folding box updates never shrinks the box. -/
theorem foldBB_mono (f : ℚ → Pt) (ts : List ℚ) (b : BBox) :
    b.largest_x ≤ (ts.foldl (fun bb t => bbUpdate bb (f t)) b).largest_x
    ∧ b.largest_y ≤ (ts.foldl (fun bb t => bbUpdate bb (f t)) b).largest_y := by
  induction ts generalizing b with
  | nil => simp
  | cons t rest ih =>
    simp only [List.foldl_cons]
    have h2 := ih (bbUpdate b (f t))
    exact ⟨le_trans (by simp [bbUpdate]) h2.1, le_trans (by simp [bbUpdate]) h2.2⟩

/-- Every sampled point is inside the folded box. -/
theorem foldBB_covers (f : ℚ → Pt) (ts : List ℚ) (b : BBox) (t : ℚ)
    (ht : t ∈ ts) :
    (f t).re ≤ (ts.foldl (fun bb u => bbUpdate bb (f u)) b).largest_x
    ∧ (f t).im ≤ (ts.foldl (fun bb u => bbUpdate bb (f u)) b).largest_y := by
  induction ts generalizing b with
  | nil => cases ht
  | cons a rest ih =>
    simp only [List.foldl_cons]
    rcases List.mem_cons.mp ht with rfl | hmem
    · have h2 := foldBB_mono f rest (bbUpdate b (f t))
      exact ⟨le_trans (by simp [bbUpdate]) h2.1, le_trans (by simp [bbUpdate]) h2.2⟩
    · exact ih (bbUpdate b (f a)) hmem

/-- The sampler's box grows monotonically and covers every sampled
point. -/
theorem samplePoints_bbox (f : ℚ → Pt) (ts : List ℚ) (b : BBox) :
    (b.largest_x ≤ (samplePoints f ts b).2.largest_x
      ∧ b.largest_y ≤ (samplePoints f ts b).2.largest_y)
    ∧ ∀ q ∈ (samplePoints f ts b).1,
        q.re ≤ (samplePoints f ts b).2.largest_x
        ∧ q.im ≤ (samplePoints f ts b).2.largest_y := by
  constructor
  · rw [samplePoints_snd]
    exact foldBB_mono f ts b
  · intro q hq
    rw [samplePoints_fst] at hq
    obtain ⟨t, ht, rfl⟩ := List.mem_map.mp hq
    rw [samplePoints_snd]
    exact foldBB_covers f ts b t ht

/-- The flattening dispatch returns the box-independent point list. -/
theorem flattenPrim_points (env : NumEnv) (res : ℕ) (p : Primitive) (b : BBox)
    (pts : List Pt) (b' : BBox)
    (h : flattenPrim env res p b = some (pts, b')) :
    pts = flatPts env res p := by
  cases p with
  | line s e =>
    simp only [flattenPrim, line_to_points, Option.some.injEq,
      Prod.mk.injEq] at h
    simp [flatPts, ← h.1]
  | arc s e r rot =>
    simp only [flattenPrim, Option.some.injEq] at h
    have h1 : pts = (arc_to_points env ⟨s, e, r, rot⟩ res b).1 := by rw [h]
    simp [h1, flatPts, arc_to_points, samplePoints_fst]
  | quad s c e =>
    simp only [flattenPrim, Option.some.injEq] at h
    have h1 : pts = (quadricbezier_to_points s c e res b).1 := by rw [h]
    simp [h1, flatPts, quadricbezier_to_points, samplePoints_fst]
  | cubic s c1 c2 e =>
    simp only [flattenPrim, Option.some.injEq] at h
    have h1 : pts = (cubicbezier_to_points s c1 c2 e res b).1 := by rw [h]
    simp [h1, flatPts, cubicbezier_to_points, samplePoints_fst]
  | other s e => simp [flattenPrim] at h

/-- Whenever the flattening dispatch succeeds, the box grows and covers
all returned points. -/
theorem flattenPrim_bbox (env : NumEnv) (res : ℕ) (p : Primitive) (b : BBox)
    (pts : List Pt) (b' : BBox)
    (h : flattenPrim env res p b = some (pts, b')) :
    (b.largest_x ≤ b'.largest_x ∧ b.largest_y ≤ b'.largest_y)
    ∧ ∀ q ∈ pts, q.re ≤ b'.largest_x ∧ q.im ≤ b'.largest_y := by
  cases p with
  | line s e =>
    simp only [flattenPrim, line_to_points, Option.some.injEq,
      Prod.mk.injEq] at h
    obtain ⟨h1, h2⟩ := h
    subst h2
    constructor
    · exact ⟨le_max_left _ _, le_max_left _ _⟩
    · intro q hq
      rw [← h1] at hq
      rcases List.mem_cons.mp hq with rfl | hq2
      · exact ⟨le_trans (le_max_left q.re e.re) (le_max_right _ _),
          le_trans (le_max_left q.im e.im) (le_max_right _ _)⟩
      · rcases List.mem_cons.mp hq2 with rfl | hq3
        · exact ⟨le_trans (le_max_right s.re q.re) (le_max_right _ _),
            le_trans (le_max_right s.im q.im) (le_max_right _ _)⟩
        · cases hq3
  | arc s e r rot =>
    simp only [flattenPrim, Option.some.injEq, arc_to_points] at h
    have h1 := samplePoints_bbox
      (arcPoint env ⟨(env.solveArc ⟨s, e, r, rot⟩).1,
          (env.solveArc ⟨s, e, r, rot⟩).2.1⟩ r (rot * env.pi / 180))
      (linspace (env.solveArc ⟨s, e, r, rot⟩).2.2.1
        (if (env.solveArc ⟨s, e, r, rot⟩).2.2.2
              < (env.solveArc ⟨s, e, r, rot⟩).2.2.1 then
            (env.solveArc ⟨s, e, r, rot⟩).2.2.2 + 2 * env.pi
          else (env.solveArc ⟨s, e, r, rot⟩).2.2.2) res) b
    rw [h] at h1
    exact h1
  | quad s c e =>
    simp only [flattenPrim, Option.some.injEq, quadricbezier_to_points] at h
    have h1 := samplePoints_bbox (quadPoint s c e) (linspace 0 1 res) b
    rw [h] at h1
    exact h1
  | cubic s c1 c2 e =>
    simp only [flattenPrim, Option.some.injEq, cubicbezier_to_points] at h
    have h1 := samplePoints_bbox (cubicPoint s c1 c2 e) (linspace 0 1 res) b
    rw [h] at h1
    exact h1
  | other s e => simp [flattenPrim] at h

/-- One loop iteration never shrinks the bounding box (the overcut
append in particular leaves it untouched). -/
theorem getPointsStep_bbox_mono (env : NumEnv) (opts : SlicingOptions)
    (st : GPState) (p : Primitive) :
    st.bbox.largest_x ≤ (getPointsStep env opts st p).bbox.largest_x
    ∧ st.bbox.largest_y ≤ (getPointsStep env opts st p).bbox.largest_y := by
  unfold getPointsStep dispatchStep
  rw [discontinuityStep_bbox]
  cases hf : flattenPrim env opts.curve_resolution p st.bbox with
  | none => simp [discontinuityStep_bbox]
  | some pb =>
    obtain ⟨pts, bb⟩ := pb
    have hb := (flattenPrim_bbox env opts.curve_resolution p st.bbox pts bb hf).1
    simpa using hb

/-- One loop iteration's output box covers every point the segment
flattens to. -/
theorem getPointsStep_covers (env : NumEnv) (opts : SlicingOptions)
    (st : GPState) (p : Primitive) :
    ∀ q ∈ flatPts env opts.curve_resolution p,
      q.re ≤ (getPointsStep env opts st p).bbox.largest_x
      ∧ q.im ≤ (getPointsStep env opts st p).bbox.largest_y := by
  intro q hq
  unfold getPointsStep dispatchStep
  rw [discontinuityStep_bbox]
  cases hf : flattenPrim env opts.curve_resolution p st.bbox with
  | none =>
    cases p with
    | other s e => simp [flatPts] at hq
    | line s e => simp [flattenPrim] at hf
    | arc s e r rot => simp [flattenPrim] at hf
    | quad s c e => simp [flattenPrim] at hf
    | cubic s c1 c2 e => simp [flattenPrim] at hf
  | some pb =>
    obtain ⟨pts, bb⟩ := pb
    have heq := flattenPrim_points env opts.curve_resolution p st.bbox pts bb hf
    have hb := (flattenPrim_bbox env opts.curve_resolution p st.bbox pts bb hf).2
      q (by rw [heq]; exact hq)
    simpa using hb

/-- The walked loop never shrinks the bounding box. -/
theorem foldl_step_bbox_mono (env : NumEnv) (opts : SlicingOptions)
    (l : List Primitive) (st : GPState) :
    st.bbox.largest_x ≤ ((l.foldl (getPointsStep env opts) st).bbox).largest_x
    ∧ st.bbox.largest_y ≤ ((l.foldl (getPointsStep env opts) st).bbox).largest_y := by
  induction l generalizing st with
  | nil => simp
  | cons p rest ih =>
    simp only [List.foldl_cons]
    have h1 := getPointsStep_bbox_mono env opts st p
    have h2 := ih (getPointsStep env opts st p)
    exact ⟨le_trans h1.1 h2.1, le_trans h1.2 h2.2⟩

/-- After walking a segment list, the bounding box covers every point
any of its segments flattens to. -/
theorem foldl_step_covers (env : NumEnv) (opts : SlicingOptions)
    (l : List Primitive) :
    ∀ (st : GPState), ∀ p ∈ l, ∀ q ∈ flatPts env opts.curve_resolution p,
      q.re ≤ ((l.foldl (getPointsStep env opts) st).bbox).largest_x
      ∧ q.im ≤ ((l.foldl (getPointsStep env opts) st).bbox).largest_y := by
  induction l with
  | nil =>
    intro st p hp
    cases hp
  | cons a rest ih =>
    intro st p hp q hq
    simp only [List.foldl_cons]
    rcases List.mem_cons.mp hp with rfl | hmem
    · have h1 := getPointsStep_covers env opts st p q hq
      have h2 := foldl_step_bbox_mono env opts rest (getPointsStep env opts st p)
      exact ⟨le_trans h1.1 h2.1, le_trans h1.2 h2.2⟩
    · exact ih (getPointsStep env opts st a) p hmem q hq

/-- The nested walk over paths equals the walk over the flattened
segment list. -/
theorem foldl_paths_eq_flatten (env : NumEnv) (opts : SlicingOptions)
    (paths : List (List Primitive)) (st : GPState) :
    paths.foldl (fun acc path => path.foldl (getPointsStep env opts) acc) st
      = paths.flatten.foldl (getPointsStep env opts) st := by
  induction paths generalizing st with
  | nil => rfl
  | cons p rest ih =>
    simp only [List.foldl_cons, List.flatten_cons, List.foldl_append]
    exact ih _

/-- C1 amended: when `_get_points` succeeds, the bounding box it
returns includes every point produced by flattening the path set's
segments; the points produced by overcut compensation, however, are
appended to the ToolPoint stream without updating the box and may lie
outside it (and the svg_slicer pipeline under src never computes a
scale factor from the box at all). -/
theorem bbox_covers_flattened_points (env : NumEnv) (opts : SlicingOptions)
    (b0 : BBox) (paths : List (List Primitive)) (pts : List GcodePoint)
    (bbox : BBox) (hok : get_points env opts b0 paths = Except.ok (pts, bbox)) :
    ∀ p ∈ paths.flatten, ∀ q ∈ flatPts env opts.curve_resolution p,
      q.re ≤ bbox.largest_x ∧ q.im ≤ bbox.largest_y := by
  match paths with
  | [] => exact absurd hok (by simp [get_points, except_bind_error])
  | [] :: rest => exact absurd hok (by simp [get_points, except_bind_error])
  | (a :: as) :: rest =>
    simp only [get_points, List.head?_cons, except_bind_ok] at hok
    split at hok
    · rw [Except.ok.injEq, Prod.mk.injEq] at hok
      obtain ⟨h1, h2⟩ := hok
      subst h2
      intro p hp q hq
      rw [foldl_paths_eq_flatten]
      exact foldl_step_covers env opts (((a :: as) :: rest).flatten) _ p hp q hq
    · exact absurd hok (by simp)

/-- C1 amended, witness: a single Line from (0,0) to (3,4) with blade
offset 0; the end point (3,4) is inside the returned box (3,4). -/
theorem bbox_covers_flattened_points_witness :
    get_points envQ optsA ⟨0, 0⟩ [[Primitive.line ⟨0, 0⟩ ⟨3, 4⟩]]
        = Except.ok
            ([⟨⟨0, 0⟩, false⟩, ⟨⟨3, 4⟩, false⟩, ⟨⟨0, 0⟩, false⟩], ⟨3, 4⟩)
    ∧ ((3 : ℚ) ≤ 3 ∧ (4 : ℚ) ≤ 4) := by
  have hok : get_points envQ optsA ⟨0, 0⟩ [[Primitive.line ⟨0, 0⟩ ⟨3, 4⟩]]
      = Except.ok
          ([⟨⟨0, 0⟩, false⟩, ⟨⟨3, 4⟩, false⟩, ⟨⟨0, 0⟩, false⟩], ⟨3, 4⟩) := by
    norm_num [get_points, getPointsStep, dispatchStep, discontinuityStep,
      flattenPrim, line_to_points, extend_gcode_points, get_overcut, pyDist,
      envQ, optsA, ratSqrt_zero, Primitive.start, Primitive.stop, Pt.add,
      Pt.smul, Pt.sub, Pt.sdiv, except_bind_ok, except_pure, max_def]
  refine ⟨hok, ?_⟩
  exact bbox_covers_flattened_points envQ optsA ⟨0, 0⟩ _ _ _ hok
    (Primitive.line ⟨0, 0⟩ ⟨3, 4⟩) (by decide) ⟨3, 4⟩ (by decide)

/-- Number of points the flattener produces per supported segment: two
for a Line, `curve_resolution` samples for the three curve kinds. -/
def flatCount (res : ℕ) : Primitive → ℕ
  | .line _ _ => 2
  | .other _ _ => 0
  | _ => res

/-- Raised-flag stream of the walked segment list as the spec's claim
describes it, one segment at a time: a discontinuity (start differing
from the previous segment's end, initially the origin) inserts the
non-raised overcut point when at least two points were flattened
before, then the segment's first point carries the discontinuity flag
and all its later points carry false. -/
def specFlagsBody (res : ℕ) : List Primitive → Pt → ℕ → List Bool
  | [], _, _ => []
  | p :: rest, prevEnd, prevCount =>
      (if p.start ≠ prevEnd ∧ 2 ≤ prevCount then [false] else [])
        ++ (decide (p.start ≠ prevEnd) :: List.replicate (flatCount res p - 1) false)
        ++ specFlagsBody res rest p.stop (flatCount res p)

/-- Raised flags appended by `_extend_gcode_points`: the first point
carries the pending flag, all later ones false. -/
theorem extend_map_raised (acc : List GcodePoint) (l : List Pt) (flag : Bool) :
    (extend_gcode_points acc l flag).map GcodePoint.raised
      = acc.map GcodePoint.raised
        ++ (if l.length = 0 then [] else flag :: List.replicate (l.length - 1) false) := by
  induction l generalizing acc flag with
  | nil => simp [extend_gcode_points]
  | cons p rest ih =>
    simp only [extend_gcode_points]
    rw [ih]
    cases rest with
    | nil => simp
    | cons x xs => simp [List.replicate_succ]

/-- Raised flags after the discontinuity block: at most one non-raised
overcut point is appended. -/
theorem discontinuityStep_points (env : NumEnv) (opts : SlicingOptions)
    (st : GPState) (p : Primitive) :
    (discontinuityStep env opts st p).points.map GcodePoint.raised
      = st.points.map GcodePoint.raised
        ++ (if p.start ≠ st.prev_end ∧ 2 ≤ st.new_points.length then [false]
            else []) := by
  simp only [discontinuityStep]
  by_cases hc : p.start = st.prev_end
  · simp [hc]
  · simp only [if_neg hc]
    by_cases hlen : 2 ≤ st.new_points.length
    · simp [hlen, hc, extend_map_raised]
    · simp [hlen, hc]

/-- The quadratic flattener returns `resolution` points. -/
theorem quad_points_length (s c e : Pt) (res : ℕ) (b : BBox) :
    (quadricbezier_to_points s c e res b).1.length = res := by
  rw [quadricbezier_to_points, samplePoints_fst, List.length_map,
    linspace_length]

/-- The cubic flattener returns `resolution` points. -/
theorem cubic_points_length (s c1 c2 e : Pt) (res : ℕ) (b : BBox) :
    (cubicbezier_to_points s c1 c2 e res b).1.length = res := by
  rw [cubicbezier_to_points, samplePoints_fst, List.length_map,
    linspace_length]

/-- The arc flattener returns `resolution` points. -/
theorem arc_points_length (env : NumEnv) (arc : ArcRec) (res : ℕ) (b : BBox) :
    (arc_to_points env arc res b).1.length = res := by
  unfold arc_to_points
  rw [samplePoints_fst, List.length_map, linspace_length]

/-- The flattening dispatch succeeds on every supported segment, with
the expected number of points. -/
theorem flattenPrim_supported (env : NumEnv) (res : ℕ) (p : Primitive)
    (b : BBox) (hp : p.supported = true) :
    ∃ pts b2, flattenPrim env res p b = some (pts, b2)
      ∧ pts.length = flatCount res p := by
  cases p with
  | line s e => exact ⟨_, _, rfl, rfl⟩
  | arc s e r rot => exact ⟨_, _, rfl, arc_points_length env ⟨s, e, r, rot⟩ res b⟩
  | quad s c e => exact ⟨_, _, rfl, quad_points_length s c e res b⟩
  | cubic s c1 c2 e => exact ⟨_, _, rfl, cubic_points_length s c1 c2 e res b⟩
  | other s e => simp [Primitive.supported] at hp

/-- One loop iteration on a supported segment with no pending raise:
the appended flags are the optional non-raised overcut point followed
by the discontinuity flag on the segment's first point and false on the
rest; afterwards the pending raise is cleared, the buffer holds the
segment's flattened points and the previous end is the segment's end. -/
theorem getPointsStep_flags (env : NumEnv) (opts : SlicingOptions)
    (hres : 2 ≤ opts.curve_resolution) (st : GPState) (p : Primitive)
    (hp : p.supported = true) (hr : st.raised = false) :
    ((getPointsStep env opts st p).points).map GcodePoint.raised
        = st.points.map GcodePoint.raised
          ++ (if p.start ≠ st.prev_end ∧ 2 ≤ st.new_points.length then [false]
              else [])
          ++ (decide (p.start ≠ st.prev_end)
              :: List.replicate (flatCount opts.curve_resolution p - 1) false)
    ∧ (getPointsStep env opts st p).raised = false
    ∧ (getPointsStep env opts st p).new_points.length
        = flatCount opts.curve_resolution p
    ∧ (getPointsStep env opts st p).prev_end = p.stop := by
  obtain ⟨pts, b2, hf, hlen⟩ := flattenPrim_supported env opts.curve_resolution
    p ((discontinuityStep env opts st p).bbox) hp
  have hcount : 1 ≤ flatCount opts.curve_resolution p := by
    cases p with
    | other s e => simp [Primitive.supported] at hp
    | line s e => simp [flatCount]
    | arc s e r rot => simp only [flatCount]; omega
    | quad s c e => simp only [flatCount]; omega
    | cubic s c1 c2 e => simp only [flatCount]; omega
  refine ⟨?_, ?_, ?_, ?_⟩
  · simp only [getPointsStep, dispatchStep, hf]
    rw [extend_map_raised, discontinuityStep_points, hlen]
    rw [discontinuityStep_raised, hr]
    by_cases hc : p.start = st.prev_end
    · simp [hc, show ¬ (flatCount opts.curve_resolution p = 0) by omega]
    · simp [hc, show ¬ (flatCount opts.curve_resolution p = 0) by omega]
  · simp only [getPointsStep, dispatchStep, hf]
  · simp only [getPointsStep, dispatchStep, hf]
    exact hlen
  · simp only [getPointsStep, dispatchStep, hf]

/-- Walking a run of supported segments with no pending raise appends
exactly the spec's flag stream; the pending raise stays cleared and the
buffer ends with the last segment's point count. -/
theorem foldl_flags (env : NumEnv) (opts : SlicingOptions)
    (hres : 2 ≤ opts.curve_resolution) (l : List Primitive) :
    ∀ st : GPState, (∀ p ∈ l, p.supported = true) → st.raised = false →
      ((l.foldl (getPointsStep env opts) st).points).map GcodePoint.raised
          = st.points.map GcodePoint.raised
            ++ specFlagsBody opts.curve_resolution l st.prev_end
                st.new_points.length
      ∧ (l.foldl (getPointsStep env opts) st).raised = false
      ∧ (l.foldl (getPointsStep env opts) st).new_points.length
          = (match l.getLast? with
             | none => st.new_points.length
             | some p => flatCount opts.curve_resolution p) := by
  induction l with
  | nil =>
    intro st hsupp hr
    exact ⟨by simp [specFlagsBody], by simpa using hr, by simp⟩
  | cons a rest ih =>
    intro st hsupp hr
    obtain ⟨hflags, hr1, hlen1, hprev1⟩ := getPointsStep_flags env opts hres
      st a (hsupp a (List.mem_cons_self _ _)) hr
    obtain ⟨iflags, ir, ilen⟩ := ih (getPointsStep env opts st a)
      (fun p hp => hsupp p (List.mem_cons_of_mem _ hp)) hr1
    refine ⟨?_, ?_, ?_⟩
    · simp only [List.foldl_cons]
      rw [iflags, hflags, hprev1, hlen1]
      simp [specFlagsBody, List.append_assoc]
    · simpa only [List.foldl_cons] using ir
    · simp only [List.foldl_cons]
      rw [ilen]
      cases rest with
      | nil => simpa using hlen1
      | cons b bs =>
        obtain ⟨p, hp⟩ : ∃ p, (b :: bs).getLast? = some p :=
          Option.isSome_iff_exists.mp (List.getLast?_isSome.mpr (by simp))
        simp [List.getLast?_cons_cons, hp]

/-- The last element of a list is a member. -/
theorem mem_of_getLast_opt {α : Type} :
    ∀ (l : List α) (p : α), l.getLast? = some p → p ∈ l := by
  intro l
  induction l with
  | nil => intro p hp; cases hp
  | cons a rest ih =>
    intro p hp
    cases rest with
    | nil =>
      simp only [List.getLast?_singleton, Option.some.injEq] at hp
      simp [hp]
    | cons b bs =>
      rw [List.getLast?_cons_cons] at hp
      exact List.mem_cons_of_mem _ (ih p hp)

/-- Mapping over a successful Except value. -/
theorem except_map_ok {α β : Type} (f : α → β) (a : α) :
    (Except.ok a : Except PyErr α).map f = Except.ok (f a) := rfl

/-- C7 amended: for every path set whose segments are all of the four
supported kinds (with a nonempty first path and at least two curve
samples), the raised flags of the produced ToolPoint stream are exactly
the spec's: whenever a segment's start differs from the previous
segment's end (initially the origin), the first ToolPoint produced from
it carries raised = true; every later ToolPoint from the same segment,
every ToolPoint of an endpoint-continuous successor, and every
overcut-compensation point carries raised = false.  (With an
unsupported segment in between, the pending raise is not cleared and
can leak onto a continuous successor — see the counterexample.) -/
theorem raised_flags_spec (env : NumEnv) (opts : SlicingOptions)
    (hres : 2 ≤ opts.curve_resolution) (b0 : BBox) (a : Primitive)
    (as : List Primitive) (rest : List (List Primitive))
    (hsupp : ∀ p ∈ ((a :: as) :: rest).flatten, p.supported = true) :
    (get_points env opts b0 ((a :: as) :: rest)).map
        (fun r => r.1.map GcodePoint.raised)
      = Except.ok
          (specFlagsBody opts.curve_resolution (((a :: as) :: rest).flatten)
              ⟨0, 0⟩ 0
            ++ [false]) := by
  simp only [get_points, List.head?_cons, except_bind_ok]
  rw [foldl_paths_eq_flatten]
  obtain ⟨hflags, hrs, hlen⟩ := foldl_flags env opts hres
    (((a :: as) :: rest).flatten)
    ⟨[], [], ⟨0, 0⟩, a.start, false, b0⟩ hsupp rfl
  obtain ⟨plast, hplast⟩ : ∃ p, (((a :: as) :: rest).flatten).getLast? = some p := by
    have hne : ((a :: as) :: rest).flatten ≠ [] := by simp
    exact Option.isSome_iff_exists.mp (List.getLast?_isSome.mpr hne)
  have hps := hsupp plast (mem_of_getLast_opt _ plast hplast)
  have h2 : 2 ≤ ((((a :: as) :: rest).flatten).foldl (getPointsStep env opts)
      ⟨[], [], ⟨0, 0⟩, a.start, false, b0⟩).new_points.length := by
    rw [hlen, hplast]
    cases plast with
    | other s e => simp [Primitive.supported] at hps
    | line s e => simp [flatCount]
    | arc s e r rot => simp only [flatCount]; omega
    | quad s c e => simp only [flatCount]; omega
    | cubic s c1 c2 e => simp only [flatCount]; omega
  rw [if_pos h2, except_map_ok, Except.ok.injEq, extend_map_raised, hflags]
  simp

/-- Exact rational square root of 25. -/
theorem ratSqrt_25 : ratSqrt 25 = 5 := by
  have h : Nat.sqrt 25 = 5 := by
    rw [show (25 : ℕ) = 5 * 5 from rfl, Nat.sqrt_eq]
  simp [ratSqrt, h, Rat.num_ofNat, Rat.den_ofNat]

/-- C7 counterexample: a Line to (5,5), an unsupported segment from
(8,9) back to (5,5), then a Line from (5,5) — endpoint-continuous with
its predecessor.  The unsupported segment triggers the pending raise
but is skipped, so the raise is never cleared: the continuous Line's
first ToolPoint comes out with raised = true (index 3 of the stream),
where the claim requires false for an endpoint-continuous successor. -/
theorem stale_raise_on_continuous_primitive :
    get_points envQ optsA ⟨0, 0⟩
        [[Primitive.line ⟨0, 0⟩ ⟨5, 5⟩, Primitive.other ⟨8, 9⟩ ⟨5, 5⟩,
          Primitive.line ⟨5, 5⟩ ⟨6, 6⟩]]
      = Except.ok
          ([⟨⟨0, 0⟩, false⟩, ⟨⟨5, 5⟩, false⟩, ⟨⟨0, 0⟩, false⟩,
            ⟨⟨5, 5⟩, true⟩, ⟨⟨6, 6⟩, false⟩, ⟨⟨8, 9⟩, false⟩], ⟨6, 6⟩)
    ∧ (Primitive.line ⟨5, 5⟩ ⟨6, 6⟩).start = (Primitive.other ⟨8, 9⟩ ⟨5, 5⟩).stop := by
  constructor
  · norm_num [get_points, getPointsStep, dispatchStep, discontinuityStep,
      flattenPrim, line_to_points, extend_gcode_points, get_overcut, pyDist,
      envQ, optsA, ratSqrt_zero, ratSqrt_25, Primitive.start, Primitive.stop,
      Pt.add, Pt.smul, Pt.sub, Pt.sdiv, except_bind_ok, except_pure, max_def]
  · rfl

/-- C7 amended, witness: two Lines with a jump between them. -/
theorem raised_flags_spec_witness :
    2 ≤ optsA.curve_resolution
    ∧ (∀ p ∈ ([[Primitive.line ⟨0, 0⟩ ⟨1, 1⟩, Primitive.line ⟨2, 2⟩ ⟨3, 3⟩]] :
          List (List Primitive)).flatten, p.supported = true)
    ∧ (get_points envQ optsA ⟨0, 0⟩
          [[Primitive.line ⟨0, 0⟩ ⟨1, 1⟩, Primitive.line ⟨2, 2⟩ ⟨3, 3⟩]]).map
          (fun r => r.1.map GcodePoint.raised)
        = Except.ok
            (specFlagsBody optsA.curve_resolution
                (([[Primitive.line ⟨0, 0⟩ ⟨1, 1⟩,
                    Primitive.line ⟨2, 2⟩ ⟨3, 3⟩]] :
                  List (List Primitive)).flatten) ⟨0, 0⟩ 0
              ++ [false]) :=
  ⟨by decide, by decide,
    raised_flags_spec envQ optsA (by decide) ⟨0, 0⟩ _ _ _ (by decide)⟩
